import Mathlib

/-!
Verification of the state/context engine of the `react-dropdown` component
library (source files `DropdownRoot.tsx`, `DropdownContext.tsx`,
`DropdownList.tsx`).

The development shallowly embeds the engine's pure helpers and its stateful
open/close machinery:

* `computePlacement` — the placement resolver of `DropdownRoot.tsx`
  (`window.innerHeight` is passed in as an explicit parameter).
* `defaultFilter` — the default search filter of `DropdownRoot.tsx`; JS
  strings are modelled as `List Char`, with `jsTrim`/`jsToLower`/`containsB`
  embedding `String.prototype.trim` / `toLowerCase` / `includes`.
* `groupItemsBySection` — the section grouping pass of `DropdownList.tsx`.
* the open/close state machine of `DropdownRoot.tsx` (`openDropdown`,
  `closeDropdown`, `closeImmediate`, `toggleDropdown`, `handleSelect`,
  `handleSearchChange`), with `setTimeout` modelled as a queue of pending
  timers carried in a `World` record; React state setters are applied
  synchronously, and `onOpenChange`/`onSelect` invocations are recorded in
  event lists.
* `handleKeyDown` of `useKeyboardNavigation` and `useDropdownContext`
  (`DropdownContext.tsx`).
-/

namespace Dropdown

/-! ### JS string model -/

/-- JS strings are modelled as lists of characters. -/
abbrev JSString := List Char

/-- Model of `String.prototype.trim`: drop whitespace from both ends. -/
def jsTrim (s : JSString) : JSString :=
  ((s.dropWhile Char.isWhitespace).reverse.dropWhile Char.isWhitespace).reverse

/-- Model of `String.prototype.toLowerCase` (character-wise lowering). -/
def jsToLower (s : JSString) : JSString :=
  s.map Char.toLower

/-- Boolean prefix test on character lists (helper for `containsB`). -/
def isPrefixB : JSString → JSString → Bool
  | [], _ => true
  | _ :: _, [] => false
  | a :: as, b :: bs => a == b && isPrefixB as bs

/-- Model of `String.prototype.includes`: `containsB needle hay` is `true`
iff `needle` occurs contiguously inside `hay`. -/
def containsB (needle : JSString) : JSString → Bool
  | [] => needle.isEmpty
  | c :: t => isPrefixB needle (c :: t) || containsB needle t

/-! ### Placement resolver (`computePlacement`, `DropdownRoot.tsx`) -/

/-- The requested placement prop: `"auto" | "top" | "bottom"`. -/
inductive ReqPlacement
  | auto
  | top
  | bottom
deriving DecidableEq

/-- A concrete resolved placement: `"top" | "bottom"`. -/
inductive Side
  | top
  | bottom
deriving DecidableEq

/-- The fields of a `DOMRect` that `computePlacement` reads. -/
structure Rect where
  top : ℚ
  height : ℚ

/-- Embedding of `computePlacement(triggerRect, placement)` from
`DropdownRoot.tsx`.  The ambient `window.innerHeight` is passed in as the
explicit parameter `viewportHeight`; numeric values are modelled as
rationals. -/
def computePlacement (viewportHeight : ℚ) (triggerRect : Option Rect)
    (placement : ReqPlacement) : Side :=
  match placement with
  | .top => .top
  | .bottom => .bottom
  | .auto =>
    match triggerRect with
    | none => .bottom
    | some r =>
      let triggerCenter := r.top + r.height / 2
      let isInLowerHalf := triggerCenter > viewportHeight / 2
      if isInLowerHalf then .top else .bottom

/-! ### Default search filter (`defaultFilter`, `DropdownRoot.tsx`) -/

/-- Embedding of the `defaultFilter` callback of `DropdownRoot.tsx`:
`if (!query.trim()) return items;` and otherwise keep the items whose
display string, lower-cased, includes `query.toLowerCase().trim()`. -/
def defaultFilter {α : Type} (getItemDisplay : α → JSString)
    (items : List α) (query : JSString) : List α :=
  if (jsTrim query).isEmpty then
    items
  else
    let normalizedQuery := jsTrim (jsToLower query)
    items.filter (fun item => containsB normalizedQuery (jsToLower (getItemDisplay item)))

/-! ### Keyboard navigation (`useKeyboardNavigation`, `DropdownContext.tsx`) -/

/-- The key events `handleKeyDown` switches on; any other key falls through
to the (absent) default branch. -/
inductive Key
  | arrowDown
  | arrowUp
  | enter
  | escape
  | other
deriving DecidableEq

/-- Result of one `handleKeyDown` call: the updated `focusedIndexRef`
value together with the side effects the handler performed. -/
structure NavResult (α : Type) where
  focusedIndex : ℤ
  selected : Option α
  closed : Bool
  prevented : Bool
deriving DecidableEq

/-- Embedding of `handleKeyDown` of `useKeyboardNavigation`
(`DropdownContext.tsx`): `ArrowDown` sets the index to
`Math.min(i + 1, items.length - 1)`, `ArrowUp` to `Math.max(i - 1, 0)`,
`Enter` invokes `onSelect(items[i])` when `0 <= i < items.length`, and
`Escape` invokes `closeDropdown()`. -/
def handleKeyDown {α : Type} (items : List α) (focusedIndex : ℤ) :
    Key → NavResult α
  | .arrowDown =>
    ⟨min (focusedIndex + 1) ((items.length : ℤ) - 1), none, false, true⟩
  | .arrowUp =>
    ⟨max (focusedIndex - 1) 0, none, false, true⟩
  | .enter =>
    if 0 ≤ focusedIndex ∧ focusedIndex < (items.length : ℤ) then
      ⟨focusedIndex, items.get? focusedIndex.toNat, false, true⟩
    else
      ⟨focusedIndex, none, false, true⟩
  | .escape =>
    ⟨focusedIndex, none, true, true⟩
  | .other =>
    ⟨focusedIndex, none, false, false⟩

/-- Runs a sequence of key events through `handleKeyDown`, threading the
`focusedIndexRef` value. -/
def navRun {α : Type} (items : List α) : List Key → ℤ → ℤ
  | [], i => i
  | k :: ks, i => navRun items ks (handleKeyDown items i k).focusedIndex

/-! ### Open/close state machine (`DropdownRoot.tsx`)

`setTimeout` is modelled by a queue of pending timers `(fire time, action)`
carried in a `World` record together with the component state, the current
time, and the recorded `onOpenChange` / `onSelect` invocations.  React
state setters are applied synchronously.  `openDropdown` and
`closeDropdown` in the source *return* a `() => clearTimeout(timer)`
cleanup closure, but every caller (`toggleDropdown`, `handleSelect`,
`useClickOutside`, the trigger's `onClick`) discards that return value, so
no pending timer is ever cancelled; accordingly the operations below only
ever append to the pending queue. -/

/-- Embedding of `DropdownAnimationState`: `"entering" | "exiting" | "idle"`. -/
inductive AnimState
  | idle
  | entering
  | exiting
deriving DecidableEq

/-- What a scheduled `setTimeout` callback does when it fires:
the `openDropdown` timer resets the animation state to idle; the
`closeDropdown` timer performs the deferred close. -/
inductive TimerAction
  | enterIdle
  | exitClose
deriving DecidableEq

/-- The component state owned by `DropdownRoot` that the open/close
machinery touches (`isOpen`, `selectedItem`, `searchQuery`,
`animationState`, `skipExitAnimationRef`).  Items are represented by
natural-number identifiers. -/
structure RootState where
  isOpen : Bool
  selectedItem : Option ℕ
  searchQuery : JSString
  animationState : AnimState
  skipExitAnimation : Bool
deriving DecidableEq

/-- The construction props consulted by the open/close machinery. -/
structure RootConfig where
  disabled : Bool
  closeOnSelect : Bool
  enterDuration : ℚ
  exitDuration : ℚ

/-- A dropdown instance together with its environment: current time (in
milliseconds), pending timers, and the recorded callback invocations. -/
structure World where
  now : ℚ
  state : RootState
  pending : List (ℚ × TimerAction)
  openChanges : List Bool
  selects : List ℕ

/-- Initial state: `useState(false)`, `useState(initialSelectedItem)` (we
take `null`), `useState("")`, `useState("idle")`, ref `false`. -/
def initState : RootState :=
  ⟨false, none, [], .idle, false⟩

/-- Initial world: time 0, no pending timers, no recorded callbacks. -/
def initWorld : World :=
  ⟨0, initState, [], [], []⟩

/-- Embedding of `openDropdown`: bail out when `disabled`, otherwise clear
the skip-exit ref, set `animationState="entering"`, `isOpen=true`, invoke
`onOpenChange(true)`, and schedule the enter timer for
`enterDuration * 1000` ms.  The returned `clearTimeout` cleanup is
discarded by all callers and is therefore not modelled. -/
def openDropdown (cfg : RootConfig) (w : World) : World :=
  if cfg.disabled then w
  else
    { w with
      state := { w.state with
        skipExitAnimation := false
        animationState := .entering
        isOpen := true }
      openChanges := w.openChanges ++ [true]
      pending := w.pending ++ [(w.now + cfg.enterDuration * 1000, .enterIdle)] }

/-- Embedding of `closeDropdown`: bail out when `!isOpen`; when the
skip-exit ref is set, close synchronously (reset `searchQuery`,
`animationState`, invoke `onOpenChange(false)`); otherwise set
`animationState="exiting"` and schedule the exit timer for
`exitDuration * 1000` ms.  The returned cleanup closure is discarded by
all callers and is therefore not modelled. -/
def closeDropdown (cfg : RootConfig) (w : World) : World :=
  if !w.state.isOpen then w
  else if w.state.skipExitAnimation then
    { w with
      state := { w.state with
        isOpen := false
        searchQuery := []
        animationState := .idle }
      openChanges := w.openChanges ++ [false] }
  else
    { w with
      state := { w.state with animationState := .exiting }
      pending := w.pending ++ [(w.now + cfg.exitDuration * 1000, .exitClose)] }

/-- Embedding of `closeImmediate`: set the skip-exit ref, close, reset the
search query and animation state, and invoke `onOpenChange(false)` — with
no `isOpen` guard. -/
def closeImmediate (w : World) : World :=
  { w with
    state := { w.state with
      skipExitAnimation := true
      isOpen := false
      searchQuery := []
      animationState := .idle }
    openChanges := w.openChanges ++ [false] }

/-- Embedding of `toggleDropdown`: `isOpen ? closeDropdown() : openDropdown()`. -/
def toggleDropdown (cfg : RootConfig) (w : World) : World :=
  if w.state.isOpen then closeDropdown cfg w else openDropdown cfg w

/-- Embedding of `handleSelect`: record the selection, invoke `onSelect`,
and dispatch `closeDropdown()` when `closeOnSelect` is set. -/
def handleSelect (cfg : RootConfig) (item : ℕ) (w : World) : World :=
  let w1 := { w with
    state := { w.state with selectedItem := some item }
    selects := w.selects ++ [item] }
  if cfg.closeOnSelect then closeDropdown cfg w1 else w1

/-- Embedding of `handleSearchChange` / `setSearchQuery`. -/
def handleSearchChange (q : JSString) (w : World) : World :=
  { w with state := { w.state with searchQuery := q } }

/-- Effect of a timer callback when it fires: the `openDropdown` timer
runs `setAnimationState("idle")`; the `closeDropdown` timer runs
`setIsOpen(false)`, `setSearchQuery("")`, `setAnimationState("idle")` and
`onOpenChange(false)`. -/
def applyTimer (a : TimerAction) (w : World) : World :=
  match a with
  | .enterIdle =>
    { w with state := { w.state with animationState := .idle } }
  | .exitClose =>
    { w with
      state := { w.state with
        isOpen := false
        searchQuery := []
        animationState := .idle }
      openChanges := w.openChanges ++ [false] }

/-- Smallest scheduled fire time among `t :: ts`. -/
def minFireTime (t : ℚ × TimerAction) (ts : List (ℚ × TimerAction)) : ℚ :=
  ts.foldl (fun acc e => min acc e.1) t.1

/-- Fires the next pending timer, following `setTimeout` semantics: the
timer with the smallest fire time fires first, ties broken in scheduling
order.  A world with no pending timers is returned unchanged. -/
def fireNext (w : World) : World :=
  match w.pending with
  | [] => w
  | t :: ts =>
    let m := minFireTime t ts
    match (t :: ts).find? (fun e => decide (e.1 = m)) with
    | some e =>
      applyTimer e.2
        { w with now := m, pending := (t :: ts).eraseP (fun e => decide (e.1 = m)) }
    | none => w

/-- Fires `n` timers in succession. -/
def iterFire : ℕ → World → World
  | 0, w => w
  | n + 1, w => iterFire n (fireNext w)

/-- The operations a consumer can dispatch through the context bundle. -/
inductive Op
  | opOpen
  | opClose
  | opCloseImmediate
  | opToggle
  | opSelect (item : ℕ)
  | opSearch (q : JSString)

/-- Dispatch of an operation to the corresponding handler. -/
def applyOp (cfg : RootConfig) : Op → World → World
  | .opOpen => openDropdown cfg
  | .opClose => closeDropdown cfg
  | .opCloseImmediate => closeImmediate
  | .opToggle => toggleDropdown cfg
  | .opSelect i => handleSelect cfg i
  | .opSearch q => handleSearchChange q

/-- Worlds reachable from a freshly mounted instance.  A search-change
step requires the dropdown to be open, because the search input that
dispatches `setSearchQuery` is rendered inside `DropdownContent`, which
only renders its children while the dropdown is open.  Timer callbacks can
fire at any point. -/
inductive Reachable (cfg : RootConfig) : World → Prop
  | init : Reachable cfg initWorld
  | step {w : World} (op : Op) : Reachable cfg w →
      (∀ q, op = .opSearch q → w.state.isOpen = true) →
      Reachable cfg (applyOp cfg op w)
  | fire {w : World} : Reachable cfg w → Reachable cfg (fireNext w)

/-! ### The open–close–open trace (claims C1/C2) -/

/-- A representative enabled configuration: `disabled=false`,
`closeOnSelect=true`, and the default durations `enterDuration=0.2`,
`exitDuration=0.15`. -/
def cfg0 : RootConfig :=
  ⟨false, true, 1 / 5, 3 / 20⟩

/-- The world after dispatching `open()`, `close()`, `open()` in the same
tick on a fresh instance. -/
def traceOCO : World :=
  openDropdown cfg0 (closeDropdown cfg0 (openDropdown cfg0 initWorld))

/-- The enter timer scheduled at time 0 with `enterDuration = 0.2`. -/
def tEnter : ℚ × TimerAction :=
  ((0 : ℚ) + 1 / 5 * 1000, .enterIdle)

/-- The exit timer scheduled at time 0 with `exitDuration = 0.15`. -/
def tExit : ℚ × TimerAction :=
  ((0 : ℚ) + 3 / 20 * 1000, .exitClose)

/-! ### Search reset on close (claim C4) -/

/-- The search-reset invariant: whenever the dropdown is closed, the
search query is empty. -/
def SearchInv (w : World) : Prop :=
  w.state.isOpen = false → w.state.searchQuery = []

/-! ### Context distribution (`useDropdownContext`, `DropdownContext.tsx`) -/

/-- The error message thrown by `useDropdownContext` outside a provider
(first line of the source message; the JSX usage example that follows in
the source string is elided). -/
def missingProviderMsg : JSString :=
  "useDropdownContext must be used within <Dropdown.Root>.".data

/-- Embedding of `useDropdownContext`: reading the context yields either
the provider's bundle or `null`; on `null` the hook throws, otherwise it
returns the bundle.  Throwing is modelled with `Except`. -/
def useDropdownContext {α : Type} (ctx : Option α) : Except JSString α :=
  match ctx with
  | none => .error missingProviderMsg
  | some c => .ok c

/-! ### Section grouping (`groupItemsBySection`, `DropdownList.tsx`) -/

/-- Embedding of `DropdownSectionMeta`: `key`, `label`, optional `description`, and an
optional opaque icon render-fragment (type parameter `ι`). -/
structure DropdownSectionMeta (ι : Type) where
  key : String
  label : String
  description : Option String
  icon : Option ι

/-- A `SectionBucket`: section metadata plus the items collected for it. -/
structure SectionBucket (α ι : Type) where
  meta : DropdownSectionMeta ι
  items : List α

/-- Result of `groupItemsBySection`. -/
structure GroupedItems (α ι : Type) where
  sections : List (SectionBucket α ι)
  ungrouped : List α

/-- Appends `x` to the bucket whose key is `m.key`, pushing a fresh bucket
`{meta: m, items: [x]}` at the end when none exists.  This represents the
source's `sectionIndex` map: an entry `(key ↦ i)` is added exactly when
the bucket with that key is pushed at index `i` and bucket indices never
move, so `sectionIndex.get(section.key)` designates precisely the unique
bucket with that key. -/
def pushIntoBucket {α ι : Type} (m : DropdownSectionMeta ι) (x : α) :
    List (SectionBucket α ι) → List (SectionBucket α ι)
  | [] => [⟨m, [x]⟩]
  | b :: bs =>
    if b.meta.key = m.key then ⟨b.meta, b.items ++ [x]⟩ :: bs
    else b :: pushIntoBucket m x bs

/-- The `items.forEach` loop of `groupItemsBySection`, threading the
`sections` and `ungrouped` accumulators. -/
def groupGo {α ι : Type} (resolveSection : α → Option (DropdownSectionMeta ι)) :
    List α → List (SectionBucket α ι) → List α → GroupedItems α ι
  | [], sections, ungrouped => ⟨sections, ungrouped⟩
  | x :: xs, sections, ungrouped =>
    match resolveSection x with
    | none => groupGo resolveSection xs sections (ungrouped ++ [x])
    | some m => groupGo resolveSection xs (pushIntoBucket m x sections) ungrouped

/-- Embedding of `groupItemsBySection(items, resolveSection)` from
`DropdownList.tsx`. -/
def groupItemsBySection {α ι : Type} (items : List α)
    (resolveSection : Option (α → Option (DropdownSectionMeta ι))) : GroupedItems α ι :=
  match resolveSection with
  | none => ⟨[], items⟩
  | some f => groupGo f items [] []

/-- Whether `x` carries section metadata with key `k`. -/
def hasSectionKey {α ι : Type} (f : α → Option (DropdownSectionMeta ι))
    (k : String) (x : α) : Bool :=
  match f x with
  | some m => decide (m.key = k)
  | none => false

/-- The §4.3 grouping contract of the specification, restated as a
recursive function: a single left-to-right pass that creates one bucket
per distinct section key in first-seen order (`seen` carries the keys
already bucketed), each bucket holding, in original order, every item
bearing that key. -/
def specSections {α ι : Type} (f : α → Option (DropdownSectionMeta ι))
    (seen : List String) : List α → List (SectionBucket α ι)
  | [] => []
  | x :: xs =>
    match f x with
    | none => specSections f seen xs
    | some m =>
      if m.key ∈ seen then specSections f seen xs
      else ⟨m, x :: xs.filter (hasSectionKey f m.key)⟩ :: specSections f (m.key :: seen) xs

/-- The companion of `groupGo` acting on the sections accumulator only. -/
def addItems {α ι : Type} (f : α → Option (DropdownSectionMeta ι))
    (s : List (SectionBucket α ι)) : List α → List (SectionBucket α ι)
  | [] => s
  | x :: xs =>
    match f x with
    | none => addItems f s xs
    | some m => addItems f (pushIntoBucket m x s) xs

/-- The keys of a list of buckets, in order. -/
def keysOf {α ι : Type} (s : List (SectionBucket α ι)) : List String :=
  s.map (fun b => b.meta.key)

/-! ### Theorems -/

theorem isPrefixB_iff (n h : JSString) :
    isPrefixB n h = true ↔ ∃ t, h = n ++ t := by
  induction n generalizing h with
  | nil =>
    simp [isPrefixB]
  | cons a as ih =>
    cases h with
    | nil => simp [isPrefixB]
    | cons b bs =>
      simp only [isPrefixB, Bool.and_eq_true, beq_iff_eq, ih, List.cons_append,
        List.cons.injEq]
      constructor
      · rintro ⟨rfl, t, rfl⟩
        exact ⟨t, rfl, rfl⟩
      · rintro ⟨t, rfl, rfl⟩
        exact ⟨rfl, t, rfl⟩

theorem containsB_iff (n h : JSString) :
    containsB n h = true ↔ n <:+: h := by
  induction h with
  | nil =>
    simp only [containsB, List.isEmpty_iff, List.IsInfix]
    constructor
    · rintro rfl
      exact ⟨[], [], rfl⟩
    · rintro ⟨pre, post, hp⟩
      rcases List.append_eq_nil.mp (List.append_eq_nil.mp hp).1 with ⟨-, h2⟩
      exact h2
  | cons c t ih =>
    simp only [containsB, Bool.or_eq_true, isPrefixB_iff, ih, List.IsInfix]
    constructor
    · rintro (⟨s, hs⟩ | ⟨pre, post, hp⟩)
      · exact ⟨[], s, by simpa using hs.symm⟩
      · exact ⟨c :: pre, post, by simp [← hp]⟩
    · rintro ⟨pre, post, hp⟩
      cases pre with
      | nil =>
        left
        exact ⟨post, by simpa using hp.symm⟩
      | cons p ps =>
        right
        refine ⟨ps, post, ?_⟩
        have := hp
        simp only [List.cons_append] at this
        exact (List.cons.injEq .. ▸ this).2

/-- C5: the placement resolver echoes a concrete requested placement
unchanged for any trigger rectangle; `"auto"` with no rectangle resolves to
`bottom`; and `"auto"` with a rectangle resolves to `top` exactly when the
rectangle's vertical center exceeds half the viewport height, and `bottom`
otherwise. -/
theorem computePlacement_spec (vh : ℚ) (rect? : Option Rect) (r : Rect) :
    computePlacement vh rect? .top = .top ∧
    computePlacement vh rect? .bottom = .bottom ∧
    computePlacement vh none .auto = .bottom ∧
    (computePlacement vh (some r) .auto = .top ↔ r.top + r.height / 2 > vh / 2) ∧
    (computePlacement vh (some r) .auto = .bottom ↔ ¬(r.top + r.height / 2 > vh / 2)) := by
  refine ⟨rfl, rfl, rfl, ?_, ?_⟩ <;>
    · simp only [computePlacement]
      split <;> simp_all

/-- C6: the default filter returns the items list unchanged when the
trimmed query is empty, and otherwise returns exactly the items whose
display string, lower-cased, contains the trimmed lower-cased query as a
substring; in both cases the result is a sublist (same relative order) of
the input. -/
theorem defaultFilter_spec {α : Type} (display : α → JSString)
    (items : List α) (q : JSString) :
    defaultFilter display items q =
      (if jsTrim q = [] then items
       else items.filter
         (fun x => decide (jsTrim (jsToLower q) <:+: jsToLower (display x)))) ∧
    (defaultFilter display items q).Sublist items := by
  constructor
  · unfold defaultFilter
    rcases eq_or_ne (jsTrim q) [] with h | h
    · simp [h]
    · simp only [List.isEmpty_iff, h, if_neg, if_false]
      exact List.filter_congr fun x _ => by
        by_cases hc : jsTrim (jsToLower q) <:+: jsToLower (display x)
        · simp [hc, (containsB_iff _ _).mpr hc]
        · simp only [hc, decide_eq_false_iff_not.mpr hc]
          exact Bool.eq_false_iff.mpr fun hb => hc ((containsB_iff _ _).mp hb)
  · unfold defaultFilter
    split
    · exact List.Sublist.refl items
    · exact List.filter_sublist items

/-- C3 counterexample: with an empty items list, a single `ArrowUp` from
the initial index `-1` moves the focused index to `0`, which lies outside
the claimed range `[-1, n-1] = [-1, -1]` — the index does not stay `-1`
when `n = 0`. -/
theorem navRun_empty_arrowUp_escapes :
    navRun ([] : List Unit) [.arrowUp] (-1) = 0 ∧
    ¬(navRun ([] : List Unit) [.arrowUp] (-1) ≤ (([] : List Unit).length : ℤ) - 1) := by
  constructor
  · rfl
  · decide

/-- Invariant step for the amended C3 bound. -/
theorem handleKeyDown_focusedIndex_bounds {α : Type} (items : List α)
    (i : ℤ) (k : Key) (h0 : -1 ≤ i) (h1 : i ≤ max ((items.length : ℤ) - 1) 0) :
    -1 ≤ (handleKeyDown items i k).focusedIndex ∧
    (handleKeyDown items i k).focusedIndex ≤ max ((items.length : ℤ) - 1) 0 := by
  cases k with
  | arrowDown => constructor <;> (simp only [handleKeyDown]; omega)
  | arrowUp => constructor <;> (simp only [handleKeyDown]; omega)
  | enter =>
    simp only [handleKeyDown]
    split <;> exact ⟨h0, h1⟩
  | escape => exact ⟨h0, h1⟩
  | other => exact ⟨h0, h1⟩

/-- C3 amended: starting from the initial index `-1`, any sequence of key
events keeps the focused index within `[-1, max(n-1, 0)]`.  For `n ≥ 1`
this is the claimed `[-1, n-1]` range with no wraparound; for `n = 0` the
index can reach `0` (via `ArrowUp`) as well as `-1`. -/
theorem navRun_bounds {α : Type} (items : List α) (keys : List Key) :
    -1 ≤ navRun items keys (-1) ∧
    navRun items keys (-1) ≤ max ((items.length : ℤ) - 1) 0 := by
  suffices h : ∀ i, -1 ≤ i → i ≤ max ((items.length : ℤ) - 1) 0 →
      -1 ≤ navRun items keys i ∧ navRun items keys i ≤ max ((items.length : ℤ) - 1) 0 by
    exact h (-1) le_rfl (by omega)
  induction keys with
  | nil => intro i h0 h1; exact ⟨h0, h1⟩
  | cons k ks ih =>
    intro i h0 h1
    obtain ⟨g0, g1⟩ := handleKeyDown_focusedIndex_bounds items i k h0 h1
    exact ih _ g0 g1

/-! ### Timer-firing helper lemmas -/

theorem fireNext_single (w : World) (a : ℚ × TimerAction)
    (h : w.pending = [a]) :
    fireNext w = applyTimer a.2 { w with now := a.1, pending := [] } := by
  simp [fireNext, h, minFireTime, List.find?, List.eraseP]

theorem fireNext_pair_head (w : World) (a c : ℚ × TimerAction)
    (h : w.pending = [a, c]) (hle : a.1 ≤ c.1) :
    fireNext w = applyTimer a.2 { w with now := a.1, pending := [c] } := by
  have hm : minFireTime a [c] = a.1 := by
    simp [minFireTime, min_eq_left hle]
  simp [fireNext, h, hm, List.find?, List.eraseP]

theorem fireNext_three_mid (w : World) (a b c : ℚ × TimerAction)
    (h : w.pending = [a, b, c]) (h1 : b.1 < a.1) (h2 : b.1 ≤ c.1) :
    fireNext w = applyTimer b.2 { w with now := b.1, pending := [a, c] } := by
  have hm : minFireTime a [b, c] = b.1 := by
    simp [minFireTime, min_eq_right h1.le, min_eq_left h2]
  have hne : ¬(a.1 = b.1) := by exact fun hh => absurd hh (ne_of_gt h1)
  simp [fireNext, h, hm, List.find?, List.eraseP, hne]

theorem tExit_lt_tEnter : tExit.1 < tEnter.1 := by
  simp only [tExit, tEnter]
  norm_num

/-- Running the three pending timers of the open–close–open trace to
completion: the stale exit timer fires first (150 ms < 200 ms) and closes
the dropdown, so the terminal state is closed even though the last request
was `open()`; `onOpenChange` has been called with `true, true, false`. -/
theorem openCloseOpen_result :
    (iterFire 3 traceOCO).state.isOpen = false ∧
    (iterFire 3 traceOCO).openChanges = [true, true, false] ∧
    (iterFire 3 traceOCO).pending = [] := by
  have e1 : fireNext traceOCO =
      applyTimer tExit.2 { traceOCO with now := tExit.1, pending := [tEnter, tEnter] } :=
    fireNext_three_mid traceOCO tEnter tExit tEnter rfl tExit_lt_tEnter tExit_lt_tEnter.le
  have e2 : fireNext (applyTimer tExit.2 { traceOCO with now := tExit.1, pending := [tEnter, tEnter] }) =
      applyTimer tEnter.2
        { (applyTimer tExit.2 { traceOCO with now := tExit.1, pending := [tEnter, tEnter] }) with
          now := tEnter.1, pending := [tEnter] } :=
    fireNext_pair_head _ tEnter tEnter rfl le_rfl
  have e3 : iterFire 3 traceOCO = fireNext (fireNext (fireNext traceOCO)) := rfl
  rw [e3, e1, e2]
  rw [fireNext_single _ tEnter rfl]
  exact ⟨rfl, rfl, rfl⟩

/-- C1 counterexample: on a fresh enabled instance, `open()` leaves one
pending enter timer, and the subsequent `close()` does *not* cancel it —
two timers are pending after `close()` and three after the second
`open()`, with the enter and exit timers simultaneously in flight.
Running all three timers lets the stale exit timer fire its close
transition after the final `open()` request, so the trace terminates
closed with `onOpenChange` called `true, true, false`. -/
theorem c1_pending_not_cancelled :
    (openDropdown cfg0 initWorld).pending.length = 1 ∧
    (closeDropdown cfg0 (openDropdown cfg0 initWorld)).pending.length = 2 ∧
    traceOCO.pending.map Prod.snd = [.enterIdle, .exitClose, .enterIdle] ∧
    (iterFire 3 traceOCO).state.isOpen = false ∧
    (iterFire 3 traceOCO).openChanges = [true, true, false] := by
  obtain ⟨h1, h2, -⟩ := openCloseOpen_result
  exact ⟨rfl, rfl, rfl, h1, h2⟩

/-- C1 amended: no dispatch ever cancels a pending timer — every
operation leaves all previously pending timers in place and schedules at
most one new one (the `clearTimeout` cleanups returned by
`openDropdown`/`closeDropdown` are discarded by all callers).  In the
open–close–open trace, all three scheduled timers therefore fire; the
stale exit timer closes the dropdown after the final `open()` request, so
the unique terminal state reached is closed, not open. -/
theorem ops_never_cancel_timers :
    (∀ (cfg : RootConfig) (op : Op) (w : World),
      ∃ t, (applyOp cfg op w).pending = w.pending ++ t ∧ t.length ≤ 1) ∧
    (iterFire 3 traceOCO).state.isOpen = false ∧
    (iterFire 3 traceOCO).pending = [] := by
  obtain ⟨h1, -, h3⟩ := openCloseOpen_result
  refine ⟨?_, h1, h3⟩
  have hclose : ∀ (cfg : RootConfig) (w : World),
      ∃ t, (closeDropdown cfg w).pending = w.pending ++ t ∧ t.length ≤ 1 := by
    intro cfg w
    unfold closeDropdown
    split
    · exact ⟨[], by simp⟩
    · split
      · exact ⟨[], by simp⟩
      · exact ⟨[(w.now + cfg.exitDuration * 1000, .exitClose)], rfl, by simp⟩
  have hopen : ∀ (cfg : RootConfig) (w : World),
      ∃ t, (openDropdown cfg w).pending = w.pending ++ t ∧ t.length ≤ 1 := by
    intro cfg w
    unfold openDropdown
    split
    · exact ⟨[], by simp⟩
    · exact ⟨[(w.now + cfg.enterDuration * 1000, .enterIdle)], rfl, by simp⟩
  intro cfg op w
  cases op with
  | opOpen => exact hopen cfg w
  | opClose => exact hclose cfg w
  | opCloseImmediate => exact ⟨[], by simp [applyOp, closeImmediate]⟩
  | opToggle =>
    simp only [applyOp, toggleDropdown]
    split
    · exact hclose cfg w
    · exact hopen cfg w
  | opSelect i =>
    simp only [applyOp, handleSelect]
    split
    · exact hclose cfg _
    · exact ⟨[], by simp⟩
  | opSearch q => exact ⟨[], by simp [applyOp, handleSearchChange]⟩

/-- C2 counterexample: `open()` while the machine is already opening
(`isOpen = true`, `animationState = entering`) is *not* a no-op — the
second `open()` invokes `onOpenChange(true)` again and schedules a second
enter timer. -/
theorem open_while_opening_not_noop :
    (openDropdown cfg0 initWorld).state.isOpen = true ∧
    (openDropdown cfg0 initWorld).state.animationState = .entering ∧
    (openDropdown cfg0 initWorld).openChanges = [true] ∧
    (openDropdown cfg0 (openDropdown cfg0 initWorld)).openChanges = [true, true] ∧
    (openDropdown cfg0 (openDropdown cfg0 initWorld)).pending.length = 2 := by
  exact ⟨rfl, rfl, rfl, rfl, rfl⟩

/-- C2 amended: `close()` while already closed (`isOpen = false`) is a
no-op, but `open()` is *not* guarded against re-entry: whenever the
instance is enabled it re-runs the whole open transition (sets
`entering`, invokes `onOpenChange(true)`, schedules a fresh enter timer)
even if the dropdown is already opening or open; likewise `close()` while
the exit animation is running (`isOpen` still `true`) re-runs the exit
transition and schedules another exit timer. -/
theorem close_noop_open_reentrant (cfg : RootConfig) (w : World) :
    (w.state.isOpen = false → closeDropdown cfg w = w) ∧
    (cfg.disabled = false →
      openDropdown cfg w =
        { w with
          state := { w.state with
            skipExitAnimation := false
            animationState := .entering
            isOpen := true }
          openChanges := w.openChanges ++ [true]
          pending := w.pending ++ [(w.now + cfg.enterDuration * 1000, .enterIdle)] }) ∧
    (w.state.isOpen = true → w.state.skipExitAnimation = false →
      closeDropdown cfg w =
        { w with
          state := { w.state with animationState := .exiting }
          pending := w.pending ++ [(w.now + cfg.exitDuration * 1000, .exitClose)] }) := by
  refine ⟨?_, ?_, ?_⟩
  · intro h
    unfold closeDropdown
    simp [h]
  · intro h
    unfold openDropdown
    simp [h]
  · intro h1 h2
    unfold closeDropdown
    simp [h1, h2]

/-- Witness for `close_noop_open_reentrant`: on a fresh instance `close()`
is a no-op; on the already-opening world a second `open()` appends
another `onOpenChange(true)`, and a `close()` there schedules an exit
timer without closing. -/
theorem close_noop_open_reentrant_witness :
    closeDropdown cfg0 initWorld = initWorld ∧
    openDropdown cfg0 (openDropdown cfg0 initWorld) =
      { (openDropdown cfg0 initWorld) with
        state := { (openDropdown cfg0 initWorld).state with
          skipExitAnimation := false
          animationState := .entering
          isOpen := true }
        openChanges := (openDropdown cfg0 initWorld).openChanges ++ [true]
        pending := (openDropdown cfg0 initWorld).pending ++
          [((openDropdown cfg0 initWorld).now + cfg0.enterDuration * 1000, .enterIdle)] } ∧
    closeDropdown cfg0 (openDropdown cfg0 initWorld) =
      { (openDropdown cfg0 initWorld) with
        state := { (openDropdown cfg0 initWorld).state with animationState := .exiting }
        pending := (openDropdown cfg0 initWorld).pending ++
          [((openDropdown cfg0 initWorld).now + cfg0.exitDuration * 1000, .exitClose)] } := by
  exact ⟨(close_noop_open_reentrant cfg0 initWorld).1 rfl,
    (close_noop_open_reentrant cfg0 (openDropdown cfg0 initWorld)).2.1 rfl,
    (close_noop_open_reentrant cfg0 (openDropdown cfg0 initWorld)).2.2 rfl rfl⟩

/-- C8: when the `disabled` flag is set, `open()` is a total no-op — the
entire world (state, callback log, timer queue) is unchanged. -/
theorem openDropdown_disabled_noop (cfg : RootConfig) (w : World)
    (h : cfg.disabled = true) :
    openDropdown cfg w = w := by
  unfold openDropdown
  simp [h]

/-- Witness for `openDropdown_disabled_noop` on a fresh disabled
instance. -/
theorem openDropdown_disabled_noop_witness :
    openDropdown ⟨true, true, 1 / 5, 3 / 20⟩ initWorld = initWorld :=
  openDropdown_disabled_noop ⟨true, true, 1 / 5, 3 / 20⟩ initWorld rfl

/-- C10: `closeImmediate()` on an already-closed world is not a no-op: it
still clears the search query, forces `animationState = idle`, sets the
skip-exit ref, and invokes `onOpenChange(false)` even though `isOpen` was
already `false`. -/
theorem closeImmediate_closed_still_fires (w : World)
    (_h : w.state.isOpen = false) :
    (closeImmediate w).state.isOpen = false ∧
    (closeImmediate w).state.searchQuery = [] ∧
    (closeImmediate w).state.animationState = .idle ∧
    (closeImmediate w).state.skipExitAnimation = true ∧
    (closeImmediate w).openChanges = w.openChanges ++ [false] := by
  exact ⟨rfl, rfl, rfl, rfl, rfl⟩

/-- Witness for `closeImmediate_closed_still_fires` on the fresh (closed)
world: `onOpenChange(false)` is invoked although no `isOpen` transition
occurred. -/
theorem closeImmediate_closed_still_fires_witness :
    (closeImmediate initWorld).openChanges = initWorld.openChanges ++ [false] :=
  (closeImmediate_closed_still_fires initWorld rfl).2.2.2.2

theorem searchInv_openDropdown (cfg : RootConfig) (w : World)
    (h : SearchInv w) : SearchInv (openDropdown cfg w) := by
  unfold openDropdown
  split
  · exact h
  · intro hc
    cases hc

theorem searchInv_closeDropdown (cfg : RootConfig) (w : World)
    (h : SearchInv w) : SearchInv (closeDropdown cfg w) := by
  unfold closeDropdown
  split
  · exact h
  · split
    · intro _
      rfl
    · intro hc
      exact absurd hc (by simp_all [Bool.not_eq_true'] )

theorem searchInv_closeImmediate (w : World) :
    SearchInv (closeImmediate w) := fun _ => rfl

theorem searchInv_applyOp (cfg : RootConfig) (op : Op) (w : World)
    (h : SearchInv w) (hq : ∀ q, op = .opSearch q → w.state.isOpen = true) :
    SearchInv (applyOp cfg op w) := by
  cases op with
  | opOpen => exact searchInv_openDropdown cfg w h
  | opClose => exact searchInv_closeDropdown cfg w h
  | opCloseImmediate => exact searchInv_closeImmediate w
  | opToggle =>
    simp only [applyOp, toggleDropdown]
    split
    · exact searchInv_closeDropdown cfg w h
    · exact searchInv_openDropdown cfg w h
  | opSelect i =>
    simp only [applyOp, handleSelect]
    split
    · exact searchInv_closeDropdown cfg _ h
    · exact h
  | opSearch q =>
    intro hc
    have := hq q rfl
    simp only [applyOp, handleSearchChange] at hc
    simp_all

theorem fireNext_pair_second (w : World) (a c : ℚ × TimerAction)
    (h : w.pending = [a, c]) (hlt : c.1 < a.1) :
    fireNext w = applyTimer c.2 { w with now := c.1, pending := [a] } := by
  have hm : minFireTime a [c] = c.1 := by
    simp [minFireTime, min_eq_right hlt.le]
  have hne : ¬(a.1 = c.1) := fun hh => absurd hh (ne_of_gt hlt)
  simp [fireNext, h, hm, List.find?, List.eraseP, hne]

theorem searchInv_fireNext (w : World) (h : SearchInv w) :
    SearchInv (fireNext w) := by
  unfold fireNext
  split
  · exact h
  · dsimp only
    split
    · rename_i e he
      obtain ⟨tm, act⟩ := e
      cases act
      · exact h
      · exact fun _ => rfl
    · exact h

/-- C4: on every reachable world, the search query is empty whenever the
dropdown is closed — every path that completes a close (the exit timer of
an animated close, the synchronous skip-exit close, `closeImmediate`, and
close-on-select) resets `searchQuery` to `""` in the same step that sets
`isOpen = false`, so search text never survives into a closed state or a
reopen. -/
theorem searchQuery_empty_when_closed (cfg : RootConfig) (w : World)
    (hr : Reachable cfg w) (hclosed : w.state.isOpen = false) :
    w.state.searchQuery = [] := by
  suffices h : SearchInv w from h hclosed
  clear hclosed
  induction hr with
  | init => exact fun _ => rfl
  | step op hw hq ih => exact searchInv_applyOp cfg op _ ih hq
  | fire hw ih => exact searchInv_fireNext _ ih

/-- Witness for `searchQuery_empty_when_closed`: after the open–close
trace `open(); setSearchQuery("foo"); close(); exit timer fires`, the
reached world is closed and its search query is empty. -/
theorem searchQuery_empty_when_closed_witness :
    (fireNext (closeDropdown cfg0 (handleSearchChange ['f', 'o', 'o']
        (openDropdown cfg0 initWorld)))).state.searchQuery = [] := by
  have hr : Reachable cfg0 (fireNext (closeDropdown cfg0 (handleSearchChange ['f', 'o', 'o']
      (openDropdown cfg0 initWorld)))) := by
    refine Reachable.fire ?_
    have h0 : Reachable cfg0 (openDropdown cfg0 initWorld) :=
      Reachable.step .opOpen Reachable.init (by intro q hq; cases hq)
    have h1 : Reachable cfg0 (handleSearchChange ['f', 'o', 'o'] (openDropdown cfg0 initWorld)) :=
      Reachable.step (.opSearch ['f', 'o', 'o']) h0 (by intro q hq; rfl)
    exact Reachable.step .opClose h1 (by intro q hq; cases hq)
  refine searchQuery_empty_when_closed cfg0 _ hr ?_
  rw [fireNext_pair_second _ tEnter tExit rfl tExit_lt_tEnter]
  rfl

/-- C9: with no provider in scope the hook throws an error whose message
names the expected ancestor `<Dropdown.Root>`, and with a provider in
scope it returns the provider's bundle unchanged without throwing. -/
theorem useDropdownContext_spec {α : Type} (c : α) :
    useDropdownContext (α := α) none = .error missingProviderMsg ∧
    "<Dropdown.Root>".data <:+: missingProviderMsg ∧
    useDropdownContext (some c) = .ok c := by
  refine ⟨rfl, ?_, rfl⟩
  rw [← containsB_iff]
  decide

theorem groupGo_ungrouped {α ι : Type} (f : α → Option (DropdownSectionMeta ι))
    (xs : List α) :
    ∀ (s : List (SectionBucket α ι)) (u : List α),
      (groupGo f xs s u).ungrouped = u ++ xs.filter (fun x => (f x).isNone) := by
  induction xs with
  | nil => intro s u; simp [groupGo]
  | cons x xs ih =>
    intro s u
    cases hfx : f x with
    | none =>
      simp only [groupGo, hfx]
      rw [ih]
      simp [List.filter_cons, hfx]
    | some m =>
      simp only [groupGo, hfx]
      rw [ih]
      simp [List.filter_cons, hfx]

theorem groupGo_sections {α ι : Type} (f : α → Option (DropdownSectionMeta ι))
    (xs : List α) :
    ∀ (s : List (SectionBucket α ι)) (u : List α),
      (groupGo f xs s u).sections = addItems f s xs := by
  induction xs with
  | nil => intro s u; simp [groupGo, addItems]
  | cons x xs ih =>
    intro s u
    cases hfx : f x with
    | none => simp only [groupGo, addItems, hfx]; exact ih s (u ++ [x])
    | some m => simp only [groupGo, addItems, hfx]; exact ih _ u

theorem pushIntoBucket_not_mem {α ι : Type} (m : DropdownSectionMeta ι) (x : α)
    (s : List (SectionBucket α ι)) (h : m.key ∉ keysOf s) :
    pushIntoBucket m x s = s ++ [⟨m, [x]⟩] := by
  induction s with
  | nil => rfl
  | cons b bs ih =>
    simp only [keysOf, List.map_cons, List.mem_cons, not_or] at h
    simp only [pushIntoBucket]
    rw [if_neg fun hh => h.1 hh.symm, ih (by simpa [keysOf] using h.2)]
    simp

theorem keysOf_push_mem {α ι : Type} (m : DropdownSectionMeta ι) (x : α)
    (s : List (SectionBucket α ι)) (h : m.key ∈ keysOf s) :
    keysOf (pushIntoBucket m x s) = keysOf s := by
  induction s with
  | nil => cases h
  | cons b bs ih =>
    simp only [pushIntoBucket]
    by_cases hbk : b.meta.key = m.key
    · rw [if_pos hbk]
      simp [keysOf]
    · rw [if_neg hbk]
      have hmem : m.key ∈ keysOf bs := by
        simp only [keysOf, List.map_cons, List.mem_cons] at h
        exact h.resolve_left fun hh => hbk hh.symm
      simp only [keysOf, List.map_cons]
      rw [show (pushIntoBucket m x bs).map (fun b => b.meta.key) = keysOf (pushIntoBucket m x bs) from rfl,
        ih hmem]
      rfl

theorem pushIntoBucket_map_hit {α ι : Type} (f : α → Option (DropdownSectionMeta ι))
    (m : DropdownSectionMeta ι) (x : α) (xs : List α) :
    ∀ (s : List (SectionBucket α ι)), (keysOf s).Nodup → m.key ∈ keysOf s →
      f x = some m →
      (pushIntoBucket m x s).map
        (fun b => SectionBucket.mk b.meta (b.items ++ xs.filter (hasSectionKey f b.meta.key))) =
      s.map
        (fun b => SectionBucket.mk b.meta (b.items ++ (x :: xs).filter (hasSectionKey f b.meta.key))) := by
  intro s
  induction s with
  | nil => intro _ hmem _; cases hmem
  | cons b bs ih =>
    intro hnod hmem hfx
    have hnod' : (keysOf bs).Nodup := by
      simpa [keysOf] using hnod.of_cons
    have hbnotin : b.meta.key ∉ keysOf bs := by
      have := hnod
      simp only [keysOf, List.map_cons, List.nodup_cons] at this
      simpa [keysOf] using this.1
    simp only [pushIntoBucket]
    by_cases hbk : b.meta.key = m.key
    · rw [if_pos hbk]
      simp only [List.map_cons]
      congr 1
      · have hpx : hasSectionKey f b.meta.key x = true := by
          simp [hasSectionKey, hfx, hbk]
        simp [List.filter_cons, hpx, List.append_assoc]
      · refine List.map_congr_left fun b' hb' => ?_
        have hb'k : b'.meta.key ∈ keysOf bs := by
          simp only [keysOf]
          exact List.mem_map_of_mem _ hb'
        have hne : hasSectionKey f b'.meta.key x = false := by
          have : m.key ≠ b'.meta.key := fun hh => hbnotin (by rw [hbk, hh]; exact hb'k)
          simp [hasSectionKey, hfx, this]
        simp [List.filter_cons, hne]
    · rw [if_neg hbk]
      have hmem' : m.key ∈ keysOf bs := by
        simp only [keysOf, List.map_cons, List.mem_cons] at hmem
        exact hmem.resolve_left fun hh => hbk hh.symm
      simp only [List.map_cons]
      congr 1
      · have hne : hasSectionKey f b.meta.key x = false := by
          have : m.key ≠ b.meta.key := fun hh => hbk hh.symm
          simp [hasSectionKey, hfx, this]
        simp [List.filter_cons, hne]
      · exact ih hnod' hmem' hfx

theorem specSections_congr {α ι : Type} (f : α → Option (DropdownSectionMeta ι))
    (xs : List α) :
    ∀ (s1 s2 : List String), (∀ k, k ∈ s1 ↔ k ∈ s2) →
      specSections f s1 xs = specSections f s2 xs := by
  induction xs with
  | nil => intros; rfl
  | cons x xs ih =>
    intro s1 s2 h
    cases hfx : f x with
    | none =>
      simp only [specSections, hfx]
      exact ih s1 s2 h
    | some m =>
      simp only [specSections, hfx]
      by_cases hm : m.key ∈ s1
      · rw [if_pos hm, if_pos ((h m.key).mp hm)]
        exact ih s1 s2 h
      · rw [if_neg hm, if_neg fun hh => hm ((h m.key).mpr hh)]
        rw [ih (m.key :: s1) (m.key :: s2) (by intro k; simp [h k])]

theorem addItems_eq {α ι : Type} (f : α → Option (DropdownSectionMeta ι))
    (xs : List α) :
    ∀ (s : List (SectionBucket α ι)), (keysOf s).Nodup →
      addItems f s xs =
        s.map (fun b => SectionBucket.mk b.meta
          (b.items ++ xs.filter (hasSectionKey f b.meta.key))) ++
        specSections f (keysOf s) xs := by
  induction xs with
  | nil =>
    intro s _
    have h1 : s.map (fun b => SectionBucket.mk b.meta
        (b.items ++ List.filter (hasSectionKey f b.meta.key) [])) = s := by
      rw [show s = s.map (fun b => b) from (List.map_id' s).symm]
      simp only [List.map_map]
      exact List.map_congr_left fun b _ => by simp
    simp only [addItems, specSections, List.append_nil]
    exact h1.symm
  | cons x xs ih =>
    intro s hnod
    cases hfx : f x with
    | none =>
      simp only [addItems, hfx]
      rw [ih s hnod]
      congr 1
      · refine List.map_congr_left fun b _ => ?_
        have hne : hasSectionKey f b.meta.key x = false := by
          simp [hasSectionKey, hfx]
        simp [List.filter_cons, hne]
      · simp [specSections, hfx]
    | some m =>
      by_cases hmem : m.key ∈ keysOf s
      · simp only [addItems, hfx]
        have hnod' : (keysOf (pushIntoBucket m x s)).Nodup := by
          rw [keysOf_push_mem m x s hmem]; exact hnod
        rw [ih _ hnod', keysOf_push_mem m x s hmem,
          pushIntoBucket_map_hit f m x xs s hnod hmem hfx]
        congr 1
        simp [specSections, hfx, hmem]
      · simp only [addItems, hfx]
        rw [pushIntoBucket_not_mem m x s hmem]
        have hkeys : keysOf (s ++ [⟨m, [x]⟩]) = keysOf s ++ [m.key] := by
          simp [keysOf]
        have hnod' : (keysOf (s ++ [⟨m, [x]⟩])).Nodup := by
          rw [hkeys]
          simp only [List.nodup_append, List.nodup_cons, List.not_mem_nil,
            not_false_iff, List.nodup_nil, and_true, true_and]
          constructor
          · exact hnod
          · intro k hk
            simp only [List.mem_singleton]
            exact fun hh => hmem (hh ▸ hk)
        rw [ih _ hnod', hkeys]
        rw [specSections_congr f xs (keysOf s ++ [m.key]) (m.key :: keysOf s)
          (by intro k; simp [or_comm])]
        have hmap : (s ++ [(⟨m, [x]⟩ : SectionBucket α ι)]).map
            (fun b => SectionBucket.mk b.meta
              (b.items ++ xs.filter (hasSectionKey f b.meta.key))) =
            s.map (fun b => SectionBucket.mk b.meta
              (b.items ++ xs.filter (hasSectionKey f b.meta.key))) ++
            [SectionBucket.mk m ([x] ++ xs.filter (hasSectionKey f m.key))] := by
          simp
        rw [hmap]
        have hmap2 : s.map (fun b => SectionBucket.mk b.meta
            (b.items ++ xs.filter (hasSectionKey f b.meta.key))) =
            s.map (fun b => SectionBucket.mk b.meta
              (b.items ++ (x :: xs).filter (hasSectionKey f b.meta.key))) := by
          refine List.map_congr_left fun b hb => ?_
          have hbk : b.meta.key ∈ keysOf s := by
            simp only [keysOf]
            exact List.mem_map_of_mem _ hb
          have hne : hasSectionKey f b.meta.key x = false := by
            have : m.key ≠ b.meta.key := fun hh => hmem (hh ▸ hbk)
            simp [hasSectionKey, hfx, this]
          simp [List.filter_cons, hne]
        rw [hmap2]
        have hspec : specSections f (keysOf s) (x :: xs) =
            SectionBucket.mk m (x :: xs.filter (hasSectionKey f m.key)) ::
            specSections f (m.key :: keysOf s) xs := by
          simp [specSections, hfx, hmem]
        rw [hspec]
        simp

theorem specSections_props {α ι : Type} (f : α → Option (DropdownSectionMeta ι))
    (xs : List α) :
    ∀ (seen : List String),
      (∀ b ∈ specSections f seen xs,
        b.meta.key ∉ seen ∧ b.items = xs.filter (hasSectionKey f b.meta.key)) ∧
      ((specSections f seen xs).map (fun b => b.meta.key)).Nodup := by
  induction xs with
  | nil =>
    intro seen
    exact ⟨fun b hb => absurd hb (List.not_mem_nil b), List.nodup_nil⟩
  | cons x xs ih =>
    intro seen
    cases hfx : f x with
    | none =>
      obtain ⟨h1, h2⟩ := ih seen
      simp only [specSections, hfx]
      refine ⟨fun b hb => ?_, h2⟩
      obtain ⟨hk, hi⟩ := h1 b hb
      have hne : hasSectionKey f b.meta.key x = false := by
        simp [hasSectionKey, hfx]
      exact ⟨hk, by rw [List.filter_cons, hne]; simpa using hi⟩
    | some m =>
      by_cases hmem : m.key ∈ seen
      · obtain ⟨h1, h2⟩ := ih seen
        simp only [specSections, hfx, if_pos hmem]
        refine ⟨fun b hb => ?_, h2⟩
        obtain ⟨hk, hi⟩ := h1 b hb
        have hne : hasSectionKey f b.meta.key x = false := by
          have : m.key ≠ b.meta.key := fun hh => hk (hh ▸ hmem)
          simp [hasSectionKey, hfx, this]
        exact ⟨hk, by rw [List.filter_cons, hne]; simpa using hi⟩
      · obtain ⟨h1, h2⟩ := ih (m.key :: seen)
        simp only [specSections, hfx, if_neg hmem]
        constructor
        · intro b hb
          rcases List.mem_cons.mp hb with hb | hb
          · subst hb
            refine ⟨hmem, ?_⟩
            have hpx : hasSectionKey f m.key x = true := by
              simp [hasSectionKey, hfx]
            simp [List.filter_cons, hpx]
          · obtain ⟨hk, hi⟩ := h1 b hb
            have hkm : m.key ≠ b.meta.key := by
              intro hh
              exact hk (by rw [← hh]; exact List.mem_cons_self _ _)
            have hkseen : b.meta.key ∉ seen := fun hh => hk (List.mem_cons_of_mem _ hh)
            have hne : hasSectionKey f b.meta.key x = false := by
              simp [hasSectionKey, hfx, hkm]
            exact ⟨hkseen, by rw [List.filter_cons, hne]; simpa using hi⟩
        · simp only [List.map_cons, List.nodup_cons]
          refine ⟨?_, h2⟩
          intro hmk
          obtain ⟨b, hb, hbk⟩ := List.mem_map.mp hmk
          exact (h1 b hb).1 (hbk ▸ List.mem_cons_self _ _)

/-- C7: section grouping.  With no accessor, the result is empty sections
and all items ungrouped, in order.  With an accessor `f`, `ungrouped` is
exactly the items without section metadata in original order, and the
sections equal the specification's single left-to-right pass
`specSections f [] items` — one bucket per distinct key in first-seen
order (keys are pairwise distinct), each bucket holding exactly the items
bearing its key in their original relative order. -/
theorem groupItemsBySection_spec {α ι : Type} (items : List α)
    (f : α → Option (DropdownSectionMeta ι)) :
    groupItemsBySection items (none : Option (α → Option (DropdownSectionMeta ι))) =
      ⟨[], items⟩ ∧
    (groupItemsBySection items (some f)).ungrouped =
      items.filter (fun x => (f x).isNone) ∧
    (groupItemsBySection items (some f)).sections = specSections f [] items ∧
    (∀ b ∈ (groupItemsBySection items (some f)).sections,
      b.items = items.filter (hasSectionKey f b.meta.key)) ∧
    ((groupItemsBySection items (some f)).sections.map (fun b => b.meta.key)).Nodup := by
  have hsec : (groupItemsBySection items (some f)).sections = specSections f [] items := by
    show (groupGo f items [] []).sections = _
    rw [groupGo_sections f items [] []]
    have := addItems_eq f items [] (by simp [keysOf])
    simpa [keysOf] using this
  refine ⟨rfl, ?_, hsec, ?_, ?_⟩
  · show (groupGo f items [] []).ungrouped = _
    rw [groupGo_ungrouped f items [] []]
    simp
  · intro b hb
    rw [hsec] at hb
    exact ((specSections_props f items []).1 b hb).2
  · rw [hsec]
    exact (specSections_props f items []).2

